import Mathlib

/-!
Shallow embedding of the beat-timing core of the repository
(src/beat_timing.rs), with f32 arithmetic idealised as exact rational
arithmetic (ℚ).  The Rust-specific float operations that the code relies on
are modelled explicitly:

* `%` on floats is a truncated remainder whose sign follows the dividend
  (`rustFmod`);
* `f32::round` rounds to the nearest integer, halves away from zero
  (`rustRound`);
* `as usize` on a float saturates: negative values become 0 and values above
  `usize::MAX` become `usize::MAX` (`usizeSat`).

In ℚ there are no non-finite values; division by zero yields 0, so a
pathological configuration with `bpm = 0` has `beat_period_seconds = 0`,
which (like the non-finite f32 period it idealises) triggers the defensive
`beat_period ≤ 0` bail-out in the missed-beat scan.

`HashSet<usize>` is modelled as `Finset ℕ` and `Vec<MissedBeat>` as
`List MissedBeat`.
-/

/-- Truncation toward zero, as Rust float-to-integer truncation behaves. -/
def rtrunc (q : ℚ) : ℤ := if 0 ≤ q then ⌊q⌋ else ⌈q⌉

/-- Rust `%` on floats: truncated remainder, the sign follows the dividend. -/
def rustFmod (x y : ℚ) : ℚ := x - y * rtrunc (x / y)

/-- Rust `f32::round`: nearest integer, halves rounded away from zero. -/
def rustRound (q : ℚ) : ℤ := if 0 ≤ q then ⌊q + 1/2⌋ else ⌈q - 1/2⌉

/-- Largest value of `usize` (64-bit target).  The clamp value itself is
irrelevant to every claim, which only exercises the lower saturation. -/
def usizeMax : ℕ := 2 ^ 64 - 1

/-- Rust saturating float-to-usize cast applied to an already-integral value:
negative values saturate to 0, values above `usize::MAX` to `usize::MAX`. -/
def usizeSat (z : ℤ) : ℕ := min z.toNat usizeMax

/-- `BeatConfig` from src/beat_timing.rs. -/
structure BeatConfig where
  bpm : ℚ
  offset_seconds : ℚ
  leniency_seconds : ℚ
  grace_beats : ℕ
deriving DecidableEq

/-- `Judgment` from src/beat_timing.rs. -/
structure Judgment where
  beat_index : ℕ
  on_beat : Bool
  error_seconds : ℚ
deriving DecidableEq

/-- `BeatConfig::beat_period_seconds`: `60.0 / self.bpm`. -/
def BeatConfig.beat_period_seconds (c : BeatConfig) : ℚ := 60 / c.bpm

/-- `BeatConfig::beat_time_seconds`: time (in seconds) when beat
`beat_index` occurs, `(beat_index as f32) * period - offset`. -/
def BeatConfig.beat_time_seconds (c : BeatConfig) (beat_index : ℕ) : ℚ :=
  (beat_index : ℚ) * c.beat_period_seconds - c.offset_seconds

/-- `BeatConfig::judge`: judges the closest beat to `elapsed_seconds`,
translated line by line from src/beat_timing.rs lines 26-48. -/
def BeatConfig.judge (c : BeatConfig) (elapsed_seconds : ℚ) : Judgment :=
  let beat_period := c.beat_period_seconds
  let phase := rustFmod (elapsed_seconds + c.offset_seconds + beat_period / 2) beat_period
  let error0 := min phase (beat_period - phase)
  let on_beat := decide (error0 ≤ c.leniency_seconds)
  let error := if beat_period / 2 < phase then -error0 else error0
  let beat_index := usizeSat (rustRound ((elapsed_seconds + c.offset_seconds) / beat_period))
  { beat_index := beat_index, on_beat := on_beat, error_seconds := error }

/-- `PressAccept` from src/beat_timing.rs. -/
inductive PressAccept where
  | Accepted : PressAccept
  | Duplicate : PressAccept
deriving DecidableEq

/-- `PressResult` from src/beat_timing.rs. -/
structure PressResult where
  judgment : Judgment
  accept : PressAccept
  counts : Bool
deriving DecidableEq

/-- `MissedBeat` from src/beat_timing.rs. -/
structure MissedBeat where
  beat_index : ℕ
  late_by_seconds : ℚ
deriving DecidableEq

/-- `BeatTracker` from src/beat_timing.rs; `HashSet<usize>` becomes
`Finset ℕ`. -/
structure BeatTracker where
  config : BeatConfig
  resolved_beats : Finset ℕ
  next_miss_check : ℕ
deriving DecidableEq

/-- `BeatTracker::new`. -/
def BeatTracker.new (config : BeatConfig) : BeatTracker :=
  { config := config, resolved_beats := ∅, next_miss_check := config.grace_beats }

/-- `BeatTracker::reset`. -/
def BeatTracker.reset (_t : BeatTracker) (config : BeatConfig) : BeatTracker :=
  { config := config, resolved_beats := ∅, next_miss_check := config.grace_beats }

/-- `BeatTracker::register_press`, returning the `PressResult` together with
the updated tracker (the Rust method mutates `self`). -/
def BeatTracker.register_press (t : BeatTracker) (elapsed_seconds : ℚ) :
    PressResult × BeatTracker :=
  let judgment := t.config.judge elapsed_seconds
  let counts := decide (t.config.grace_beats ≤ judgment.beat_index)
  if judgment.on_beat then
    if judgment.beat_index ∈ t.resolved_beats then
      ({ judgment := judgment, accept := PressAccept.Duplicate, counts := counts }, t)
    else
      ({ judgment := judgment, accept := PressAccept.Accepted, counts := counts },
       { t with resolved_beats := insert judgment.beat_index t.resolved_beats })
  else
    ({ judgment := judgment, accept := PressAccept.Accepted, counts := counts }, t)

/-- The loop of `BeatTracker::poll_missed` (src/beat_timing.rs lines
150-177), one recursive call per iteration.  Arguments `resolved` and `idx`
are the mutable `resolved_beats` and `next_miss_check`; the returned triple
is (missed notifications in emission order, final `resolved_beats`, final
`next_miss_check`).  `saturating_add 1` cannot overflow in ℕ and is plain
`+ 1`.  The Rust guard `!beat_period.is_finite() || beat_period <= 0.0`
becomes `beat_period_seconds ≤ 0` (division by zero in ℚ gives 0, so
`bpm = 0`, whose f32 period is the non-finite `inf`, also lands in this
branch). -/
def pollMissedGo (cfg : BeatConfig) (elapsed_seconds : ℚ)
    (resolved : Finset ℕ) (idx : ℕ) : List MissedBeat × Finset ℕ × ℕ :=
  let beat_time := cfg.beat_time_seconds idx
  if elapsed_seconds ≤ beat_time + cfg.leniency_seconds then
    ([], resolved, idx)
  else
    let step :=
      if idx ∈ resolved then (resolved, ([] : List MissedBeat))
      else (insert idx resolved,
            [{ beat_index := idx, late_by_seconds := elapsed_seconds - beat_time }])
    let idx2 := max (idx + 1) cfg.grace_beats
    if cfg.beat_period_seconds ≤ 0 then
      (step.2, step.1, idx2)
    else
      let rest := pollMissedGo cfg elapsed_seconds step.1 idx2
      (step.2 ++ rest.1, rest.2.1, rest.2.2)
termination_by
  (⌈(elapsed_seconds + cfg.offset_seconds - cfg.leniency_seconds) /
      cfg.beat_period_seconds⌉).toNat - idx
decreasing_by
  rename_i hstop hpath
  push_neg at hstop hpath
  have hper : 0 < cfg.beat_period_seconds := hpath
  have hq : (idx : ℚ) <
      (elapsed_seconds + cfg.offset_seconds - cfg.leniency_seconds) /
        cfg.beat_period_seconds := by
    rw [lt_div_iff₀ hper]
    have hbt : beat_time = (idx : ℚ) * cfg.beat_period_seconds - cfg.offset_seconds := rfl
    linarith [hstop, hbt]
  have hz : (idx : ℤ) <
      ⌈(elapsed_seconds + cfg.offset_seconds - cfg.leniency_seconds) /
          cfg.beat_period_seconds⌉ := by
    rw [Int.lt_ceil]
    exact_mod_cast hq
  have hmax : idx + 1 ≤ max (idx + 1) cfg.grace_beats := le_max_left _ _
  omega

/-- `BeatTracker::poll_missed`, returning the emitted notifications together
with the updated tracker. -/
def BeatTracker.poll_missed (t : BeatTracker) (elapsed_seconds : ℚ) :
    List MissedBeat × BeatTracker :=
  let r := pollMissedGo t.config elapsed_seconds t.resolved_beats t.next_miss_check
  (r.1, { t with resolved_beats := r.2.1, next_miss_check := r.2.2 })

/-- One externally visible tracker operation: a press event or a
time-advance poll, each carrying its elapsed-seconds timestamp. -/
inductive Op where
  | press : ℚ → Op
  | poll : ℚ → Op

/-- State transition of the tracker under one operation. -/
def stepOp (t : BeatTracker) : Op → BeatTracker
  | Op.press e => (t.register_press e).2
  | Op.poll e => (t.poll_missed e).2

/-- Run a sequence of tracker operations. -/
def runOps (t : BeatTracker) (ops : List Op) : BeatTracker :=
  ops.foldl stepOp t

/-- Resolution events produced by one operation: the beat indices that this
operation resolves, each tagged `true` when resolved by an accepted on-beat
press and `false` when resolved by an emitted missed-beat notification. -/
def opResolutions (t : BeatTracker) : Op → List (ℕ × Bool)
  | Op.press e =>
      let r := t.register_press e
      if r.1.judgment.on_beat = true ∧ r.1.accept = PressAccept.Accepted then
        [(r.1.judgment.beat_index, true)]
      else []
  | Op.poll e => ((t.poll_missed e).1.map (fun m => (m.beat_index, false)))

/-- Resolution events of a whole operation sequence, in order. -/
def traceResolutions (t : BeatTracker) : List Op → List (ℕ × Bool)
  | [] => []
  | op :: ops => opResolutions t op ++ traceResolutions (stepOp t op) ops

/-- Number of beat indices whose hit window is already closed at
`elapsed_seconds` (a proof-side bound, not part of the source): when the
beat period is positive, index `i` has a closed window exactly when
`i < missBound`. -/
def missBound (cfg : BeatConfig) (elapsed_seconds : ℚ) : ℕ :=
  (⌈(elapsed_seconds + cfg.offset_seconds - cfg.leniency_seconds) /
      cfg.beat_period_seconds⌉).toNat

/-- The concrete configuration of the spec scenarios: tempo 120 (period
0.5 s), offset 0, tolerance 0.05, warm-up 0. -/
def sampleConfig : BeatConfig :=
  { bpm := 120, offset_seconds := 0, leniency_seconds := 1/20, grace_beats := 0 }

/-- For a nonnegative dividend and a positive divisor, the Rust float
remainder lies in the interval from 0 (inclusive) to the divisor
(exclusive). -/
theorem rustFmod_bounds (x y : ℚ) (hx : 0 ≤ x) (hy : 0 < y) :
    0 ≤ rustFmod x y ∧ rustFmod x y < y := by
  have hq : 0 ≤ x / y := div_nonneg hx hy.le
  have h1 : (⌊x / y⌋ : ℚ) * y ≤ x := (le_div_iff₀ hy).mp (Int.floor_le _)
  have h2 : x < ((⌊x / y⌋ : ℚ) + 1) * y := (div_lt_iff₀ hy).mp (Int.lt_floor_add_one _)
  unfold rustFmod rtrunc
  rw [if_pos hq]
  constructor <;> linarith

/-- When the beat period is positive, beat index i has a closed hit window
at time e exactly when i is below missBound. -/
theorem lt_missBound_iff (cfg : BeatConfig) (e : ℚ)
    (hp : 0 < cfg.beat_period_seconds) (i : ℕ) :
    i < missBound cfg e ↔ cfg.beat_time_seconds i + cfg.leniency_seconds < e := by
  unfold missBound
  constructor
  · intro h
    have h1 : (i : ℤ) < ⌈(e + cfg.offset_seconds - cfg.leniency_seconds) /
        cfg.beat_period_seconds⌉ := by omega
    have h2 : (i : ℚ) < (e + cfg.offset_seconds - cfg.leniency_seconds) /
        cfg.beat_period_seconds := by exact_mod_cast Int.lt_ceil.mp h1
    rw [lt_div_iff₀ hp] at h2
    unfold BeatConfig.beat_time_seconds
    linarith
  · intro h
    have h2 : (i : ℚ) < (e + cfg.offset_seconds - cfg.leniency_seconds) /
        cfg.beat_period_seconds := by
      rw [lt_div_iff₀ hp]
      unfold BeatConfig.beat_time_seconds at h
      linarith
    have h1 : (i : ℤ) < ⌈(e + cfg.offset_seconds - cfg.leniency_seconds) /
        cfg.beat_period_seconds⌉ := Int.lt_ceil.mpr (by exact_mod_cast h2)
    omega

/-- With a pathological (non-positive, idealising non-finite) beat period,
the missed-beat scan performs at most one iteration. -/
theorem pollMissedGo_pathological (cfg : BeatConfig) (e : ℚ) (s : Finset ℕ) (idx : ℕ)
    (hp : cfg.beat_period_seconds ≤ 0) :
    pollMissedGo cfg e s idx =
      if e ≤ cfg.beat_time_seconds idx + cfg.leniency_seconds then ([], s, idx)
      else if idx ∈ s then ([], s, max (idx + 1) cfg.grace_beats)
      else ([{ beat_index := idx, late_by_seconds := e - cfg.beat_time_seconds idx }],
            insert idx s, max (idx + 1) cfg.grace_beats) := by
  rw [pollMissedGo]
  by_cases h1 : e ≤ cfg.beat_time_seconds idx + cfg.leniency_seconds
  · simp [h1]
  · by_cases h2 : idx ∈ s
    · simp [h1, h2, hp]
    · simp [h1, h2, hp]

/-- Bundled facts about one run of the scan loop, for an arbitrary starting
resolved set and cursor: every emitted notification records exactly how far
past the nominal beat time the poll occurred, that excess is more than the
leniency, its index was not yet resolved when the loop started and is
resolved when it ends; the resolved set only grows; and no index is emitted
twice. -/
theorem pollMissedGo_facts (cfg : BeatConfig) (e : ℚ) (s : Finset ℕ) (idx : ℕ) :
    (∀ m ∈ (pollMissedGo cfg e s idx).1,
        m.late_by_seconds = e - cfg.beat_time_seconds m.beat_index ∧
        cfg.beat_time_seconds m.beat_index + cfg.leniency_seconds < e ∧
        m.beat_index ∉ s ∧ m.beat_index ∈ (pollMissedGo cfg e s idx).2.1) ∧
    s ⊆ (pollMissedGo cfg e s idx).2.1 ∧
    ((pollMissedGo cfg e s idx).1.map MissedBeat.beat_index).Nodup := by
  refine pollMissedGo.induct cfg e (fun s idx =>
    (∀ m ∈ (pollMissedGo cfg e s idx).1,
        m.late_by_seconds = e - cfg.beat_time_seconds m.beat_index ∧
        cfg.beat_time_seconds m.beat_index + cfg.leniency_seconds < e ∧
        m.beat_index ∉ s ∧ m.beat_index ∈ (pollMissedGo cfg e s idx).2.1) ∧
    s ⊆ (pollMissedGo cfg e s idx).2.1 ∧
    ((pollMissedGo cfg e s idx).1.map MissedBeat.beat_index).Nodup) ?_ ?_ ?_ s idx
  · intro s i bt hstop
    unfold_let bt at hstop
    rw [pollMissedGo]
    simp [if_pos hstop]
  · intro s i bt hstop hpath
    unfold_let bt at hstop
    rw [pollMissedGo]
    simp only [if_neg hstop, if_pos hpath]
    push_neg at hstop
    by_cases hmem : i ∈ s
    · simp [hmem]
    · simp only [if_neg hmem]
      refine ⟨?_, Finset.subset_insert _ _, by simp⟩
      intro m hm
      simp only [List.mem_singleton] at hm
      subst hm
      exact ⟨rfl, hstop, hmem, Finset.mem_insert_self _ _⟩
  · intro s i bt hstop step idx2 hpath ih
    unfold_let bt at hstop
    unfold_let step idx2 at ih
    rw [pollMissedGo]
    simp only [if_neg hstop, if_neg hpath]
    push_neg at hstop
    by_cases hmem : i ∈ s
    · simp only [dif_pos hmem, if_pos hmem] at ih ⊢
      simpa using ih
    · simp only [dif_neg hmem, if_neg hmem] at ih ⊢
      obtain ⟨ihmem, ihsub, ihnd⟩ := ih
      simp only [List.singleton_append, List.map_cons, List.nodup_cons]
      refine ⟨?_, ?_, ?_, ihnd⟩
      · intro m hm
        rcases List.mem_cons.mp hm with hm | hm
        · subst hm
          exact ⟨rfl, hstop, hmem, ihsub (Finset.mem_insert_self _ _)⟩
        · obtain ⟨h1, h2, h3, h4⟩ := ihmem m hm
          exact ⟨h1, h2, fun hc => h3 (Finset.mem_insert_of_mem hc), h4⟩
      · exact (Finset.subset_insert _ _).trans ihsub
      · intro hc
        obtain ⟨m, hm, hmi⟩ := List.mem_map.mp hc
        exact (ihmem m hm).2.2.1 (hmi ▸ Finset.mem_insert_self i s)

/-- Full characterisation of the scan loop for a positive beat period and a
cursor at or past the warm-up count: it emits, in increasing index order,
exactly the not-yet-resolved indices whose hit window has closed, adds all
indices with closed windows to the resolved set, and leaves the cursor at
the first index whose window is still open. -/
theorem pollMissedGo_spec (cfg : BeatConfig) (e : ℚ)
    (hp : 0 < cfg.beat_period_seconds) :
    ∀ s idx, cfg.grace_beats ≤ idx →
      pollMissedGo cfg e s idx =
        (((List.range' idx (missBound cfg e - idx)).filter (fun i => i ∉ s)).map
            (fun i => { beat_index := i, late_by_seconds := e - cfg.beat_time_seconds i }),
         s ∪ Finset.Ico idx (missBound cfg e),
         max idx (missBound cfg e)) := by
  refine pollMissedGo.induct cfg e (fun s idx => cfg.grace_beats ≤ idx →
      pollMissedGo cfg e s idx =
        (((List.range' idx (missBound cfg e - idx)).filter (fun i => i ∉ s)).map
            (fun i => { beat_index := i, late_by_seconds := e - cfg.beat_time_seconds i }),
         s ∪ Finset.Ico idx (missBound cfg e),
         max idx (missBound cfg e))) ?_ ?_ ?_
  · intro s i bt hstop hgr
    unfold_let bt at hstop
    have hBi : missBound cfg e ≤ i := by
      by_contra hc
      push_neg at hc
      exact absurd ((lt_missBound_iff cfg e hp i).mp hc) (not_lt.mpr hstop)
    rw [pollMissedGo]
    rw [if_pos hstop]
    have h0 : missBound cfg e - i = 0 := by omega
    have hico : Finset.Ico i (missBound cfg e) = ∅ := Finset.Ico_eq_empty (by omega)
    have hmax : max i (missBound cfg e) = i := by omega
    simp [h0, hico, hmax]
  · intro s i bt hstop hpath hgr
    exact absurd hpath (not_le.mpr hp)
  · intro s i bt hstop step idx2 hpath ih hgr
    unfold_let bt at hstop
    unfold_let step idx2 at ih
    push_neg at hstop
    have hiB : i < missBound cfg e := (lt_missBound_iff cfg e hp i).mpr hstop
    have hmax1 : (i + 1) ⊔ cfg.grace_beats = i + 1 := by omega
    rw [hmax1] at ih
    have ih2 := ih (by omega)
    have hrange : List.range' i (missBound cfg e - i) =
        i :: List.range' (i + 1) (missBound cfg e - (i + 1)) := by
      have h1 : missBound cfg e - i = (missBound cfg e - (i + 1)) + 1 := by omega
      rw [h1, List.range'_succ]
    have hm2 : (i + 1) ⊔ missBound cfg e = i ⊔ missBound cfg e := by omega
    rw [pollMissedGo]
    rw [if_neg (not_le.mpr hstop), if_neg hpath]
    by_cases hmem : i ∈ s
    · simp only [dif_pos hmem, if_pos hmem] at ih2 ⊢
      rw [hmax1, ih2]
      have hfil : (List.range' i (missBound cfg e - i)).filter (fun j => j ∉ s) =
          (List.range' (i + 1) (missBound cfg e - (i + 1))).filter (fun j => j ∉ s) := by
        rw [hrange, List.filter_cons]
        simp [hmem]
      have hun : s ∪ Finset.Ico (i + 1) (missBound cfg e) =
          s ∪ Finset.Ico i (missBound cfg e) := by
        ext j
        simp only [Finset.mem_union, Finset.mem_Ico]
        constructor
        · rintro (h | ⟨h1, h2⟩)
          · exact Or.inl h
          · exact Or.inr ⟨by omega, h2⟩
        · rintro (h | ⟨h1, h2⟩)
          · exact Or.inl h
          · rcases Nat.eq_or_lt_of_le h1 with rfl | h3
            · exact Or.inl hmem
            · exact Or.inr ⟨by omega, h2⟩
      dsimp only [List.nil_append]
      rw [hfil, hun, hm2]
    · simp only [dif_neg hmem, if_neg hmem] at ih2 ⊢
      rw [hmax1, ih2]
      have hcons : (List.range' i (missBound cfg e - i)).filter (fun j => j ∉ s) =
          i :: (List.range' (i + 1) (missBound cfg e - (i + 1))).filter (fun j => j ∉ s) := by
        rw [hrange, List.filter_cons]
        simp [hmem]
      have hfc : (List.range' (i + 1) (missBound cfg e - (i + 1))).filter
            (fun j => j ∉ insert i s) =
          (List.range' (i + 1) (missBound cfg e - (i + 1))).filter (fun j => j ∉ s) := by
        apply List.filter_congr
        intro j hj
        have hj1 : i + 1 ≤ j := (List.mem_range'_1.mp hj).1
        have hne : j ≠ i := by omega
        simp [Finset.mem_insert, hne]
      have hun : insert i s ∪ Finset.Ico (i + 1) (missBound cfg e) =
          s ∪ Finset.Ico i (missBound cfg e) := by
        ext j
        simp only [Finset.mem_union, Finset.mem_insert, Finset.mem_Ico]
        constructor
        · rintro ((rfl | h) | ⟨h1, h2⟩)
          · exact Or.inr ⟨le_refl _, hiB⟩
          · exact Or.inl h
          · exact Or.inr ⟨by omega, h2⟩
        · rintro (h | ⟨h1, h2⟩)
          · exact Or.inl (Or.inr h)
          · rcases Nat.eq_or_lt_of_le h1 with rfl | h3
            · exact Or.inl (Or.inl rfl)
            · exact Or.inr ⟨by omega, h2⟩
      dsimp only [List.singleton_append]
      rw [hfc, hun, hm2, hcons, List.map_cons]

/-- The judgment inside a press result is the judge of the tracker's current
configuration at the press time. -/
theorem register_press_judgment (t : BeatTracker) (e : ℚ) :
    (t.register_press e).1.judgment = t.config.judge e := by
  simp only [BeatTracker.register_press]
  split_ifs <;> rfl

/-- Registering a press never changes the configuration. -/
theorem register_press_config (t : BeatTracker) (e : ℚ) :
    (t.register_press e).2.config = t.config := by
  simp only [BeatTracker.register_press]
  split_ifs <;> rfl

/-- Registering a press never moves the missed-beat scan cursor. -/
theorem register_press_cursor (t : BeatTracker) (e : ℚ) :
    (t.register_press e).2.next_miss_check = t.next_miss_check := by
  simp only [BeatTracker.register_press]
  split_ifs <;> rfl

/-- Registering a press only ever grows the resolved set. -/
theorem register_press_subset (t : BeatTracker) (e : ℚ) :
    t.resolved_beats ⊆ (t.register_press e).2.resolved_beats := by
  simp only [BeatTracker.register_press]
  split_ifs <;> simp [Finset.subset_insert]

/-- An on-beat press at an already resolved beat index is a duplicate and
leaves the whole tracker unchanged. -/
theorem register_press_duplicate (t : BeatTracker) (e : ℚ)
    (hb : (t.config.judge e).on_beat = true)
    (hm : (t.config.judge e).beat_index ∈ t.resolved_beats) :
    (t.register_press e).1.accept = PressAccept.Duplicate ∧
    (t.register_press e).2 = t := by
  simp only [BeatTracker.register_press]
  rw [if_pos hb, if_pos hm]
  exact ⟨rfl, rfl⟩

/-- If a press came back accepted and on beat, its index was unresolved and
is exactly the new element of the resolved set. -/
theorem register_press_accepted_inv (t : BeatTracker) (e : ℚ)
    (hb : (t.register_press e).1.judgment.on_beat = true)
    (ha : (t.register_press e).1.accept = PressAccept.Accepted) :
    (t.config.judge e).beat_index ∉ t.resolved_beats ∧
    (t.register_press e).2.resolved_beats =
      insert (t.config.judge e).beat_index t.resolved_beats := by
  by_cases h2 : (t.config.judge e).beat_index ∈ t.resolved_beats
  · by_cases h1 : (t.config.judge e).on_beat = true
    · exfalso
      simp only [BeatTracker.register_press] at ha
      rw [if_pos h1, if_pos h2] at ha
      simp at ha
    · exfalso
      rw [register_press_judgment] at hb
      exact h1 hb
  · by_cases h1 : (t.config.judge e).on_beat = true
    · simp only [BeatTracker.register_press]
      rw [if_pos h1, if_neg h2]
      exact ⟨h2, rfl⟩
    · exfalso
      rw [register_press_judgment] at hb
      exact h1 hb

/-- One tracker operation never changes the configuration. -/
theorem stepOp_config (t : BeatTracker) (op : Op) : (stepOp t op).config = t.config := by
  cases op with
  | press e => exact register_press_config t e
  | poll e => rfl

/-- One tracker operation only ever grows the resolved set. -/
theorem stepOp_subset (t : BeatTracker) (op : Op) :
    t.resolved_beats ⊆ (stepOp t op).resolved_beats := by
  cases op with
  | press e => exact register_press_subset t e
  | poll e => exact (pollMissedGo_facts t.config e t.resolved_beats t.next_miss_check).2.1

/-- Running operations never changes the configuration. -/
theorem runOps_config (t : BeatTracker) (ops : List Op) :
    (runOps t ops).config = t.config := by
  induction ops generalizing t with
  | nil => rfl
  | cons op ops ih =>
    have h1 : runOps t (op :: ops) = runOps (stepOp t op) ops := rfl
    rw [h1, ih (stepOp t op), stepOp_config]

/-- Running operations only ever grows the resolved set. -/
theorem runOps_subset (t : BeatTracker) (ops : List Op) :
    t.resolved_beats ⊆ (runOps t ops).resolved_beats := by
  induction ops generalizing t with
  | nil => exact Finset.Subset.refl _
  | cons op ops ih =>
    have h1 : runOps t (op :: ops) = runOps (stepOp t op) ops := rfl
    rw [h1]
    exact (stepOp_subset t op).trans (ih (stepOp t op))

/-- No resolution event of a single operation concerns an index that was
already resolved before the operation. -/
theorem opResolutions_not_mem (t : BeatTracker) (op : Op) :
    ∀ x ∈ opResolutions t op, x.1 ∉ t.resolved_beats := by
  cases op with
  | press e =>
    intro x hx
    simp only [opResolutions] at hx
    split_ifs at hx with h
    · simp only [List.mem_singleton] at hx
      subst hx
      have h1 := register_press_accepted_inv t e h.1 h.2
      rw [register_press_judgment]
      exact h1.1
    · simp at hx
  | poll e =>
    intro x hx
    simp only [opResolutions, List.mem_map] at hx
    obtain ⟨m, hm, rfl⟩ := hx
    exact ((pollMissedGo_facts t.config e t.resolved_beats t.next_miss_check).1 m hm).2.2.1

/-- Every resolution event of a single operation concerns an index that is
resolved right after the operation. -/
theorem opResolutions_mem_step (t : BeatTracker) (op : Op) :
    ∀ x ∈ opResolutions t op, x.1 ∈ (stepOp t op).resolved_beats := by
  cases op with
  | press e =>
    intro x hx
    simp only [opResolutions] at hx
    split_ifs at hx with h
    · simp only [List.mem_singleton] at hx
      subst hx
      have h1 := register_press_accepted_inv t e h.1 h.2
      show (t.register_press e).1.judgment.beat_index ∈ (t.register_press e).2.resolved_beats
      rw [register_press_judgment, h1.2]
      exact Finset.mem_insert_self _ _
    · simp at hx
  | poll e =>
    intro x hx
    simp only [opResolutions, List.mem_map] at hx
    obtain ⟨m, hm, rfl⟩ := hx
    exact ((pollMissedGo_facts t.config e t.resolved_beats t.next_miss_check).1 m hm).2.2.2

/-- A single operation never resolves the same index twice. -/
theorem opResolutions_nodup (t : BeatTracker) (op : Op) :
    ((opResolutions t op).map Prod.fst).Nodup := by
  cases op with
  | press e =>
    simp only [opResolutions]
    split_ifs <;> simp
  | poll e =>
    have h := (pollMissedGo_facts t.config e t.resolved_beats t.next_miss_check).2.2
    simpa [opResolutions, List.map_map, Function.comp] using h

/-- No resolution event anywhere in a trace concerns an index that was
already resolved when the trace started. -/
theorem traceResolutions_not_mem (t : BeatTracker) (ops : List Op) :
    ∀ x ∈ traceResolutions t ops, x.1 ∉ t.resolved_beats := by
  induction ops generalizing t with
  | nil => simp [traceResolutions]
  | cons op ops ih =>
    intro x hx
    rw [traceResolutions] at hx
    rcases List.mem_append.mp hx with hx | hx
    · exact opResolutions_not_mem t op x hx
    · intro hc
      exact ih (stepOp t op) x hx (stepOp_subset t op hc)

/-- Across a whole trace of presses and polls, every beat index is resolved
at most once. -/
theorem traceResolutions_nodup (t : BeatTracker) (ops : List Op) :
    ((traceResolutions t ops).map Prod.fst).Nodup := by
  induction ops generalizing t with
  | nil => simp [traceResolutions]
  | cons op ops ih =>
    rw [traceResolutions, List.map_append]
    refine List.Nodup.append (opResolutions_nodup t op) (ih (stepOp t op)) ?_
    intro a ha hb
    obtain ⟨x, hx, rfl⟩ := List.mem_map.mp ha
    obtain ⟨y, hy, hxy⟩ := List.mem_map.mp hb
    have h1 := opResolutions_mem_step t op x hx
    have h2 := traceResolutions_not_mem (stepOp t op) ops y hy
    exact h2 (hxy ▸ h1)

/-- Evaluation helper: compute a floor from its defining inequalities. -/
theorem floor_eval {q : ℚ} {z : ℤ} (h1 : (z : ℚ) ≤ q) (h2 : q < z + 1) : ⌊q⌋ = z :=
  Int.floor_eq_iff.mpr ⟨h1, h2⟩

/-- Evaluation helper: compute a ceiling from its defining inequalities. -/
theorem ceil_eval {q : ℚ} {z : ℤ} (h1 : (z : ℚ) - 1 < q) (h2 : q ≤ z) : ⌈q⌉ = z :=
  Int.ceil_eq_iff.mpr ⟨h1, h2⟩

/-- Judge at the nominal time of beat 1 under the scenario configuration:
the code reports the full half-period error and an off-beat press. -/
theorem judge_eval_half : sampleConfig.judge (1/2) =
    { beat_index := 1, on_beat := false, error_seconds := 1/4 } := by
  have hfl : ⌊(3/2 : ℚ)⌋ = 1 := floor_eval (by norm_num) (by norm_num)
  norm_num [BeatConfig.judge, BeatConfig.beat_period_seconds, sampleConfig,
    rustFmod, rtrunc, rustRound, usizeSat, usizeMax, hfl]

/-- Judge at 0.52 s under the scenario configuration. -/
theorem judge_eval_052 : sampleConfig.judge (13/25) =
    { beat_index := 1, on_beat := false, error_seconds := -(23/100) } := by
  have hfl : ⌊(77/50 : ℚ)⌋ = 1 := floor_eval (by norm_num) (by norm_num)
  norm_num [BeatConfig.judge, BeatConfig.beat_period_seconds, sampleConfig,
    rustFmod, rtrunc, rustRound, usizeSat, usizeMax, hfl]

/-- Judge at 0.6 s under the scenario configuration. -/
theorem judge_eval_06 : sampleConfig.judge (3/5) =
    { beat_index := 1, on_beat := false, error_seconds := -(3/20) } := by
  have hfl : ⌊(17/10 : ℚ)⌋ = 1 := floor_eval (by norm_num) (by norm_num)
  norm_num [BeatConfig.judge, BeatConfig.beat_period_seconds, sampleConfig,
    rustFmod, rtrunc, rustRound, usizeSat, usizeMax, hfl]

/-- Judge at 0.25 s (the exact midpoint between beats 0 and 1) under the
scenario configuration: the code reports a perfect on-beat hit there. -/
theorem judge_eval_quarter : sampleConfig.judge (1/4) =
    { beat_index := 1, on_beat := true, error_seconds := 0 } := by
  have hfl : ⌊(1 : ℚ)⌋ = 1 := by norm_num
  norm_num [BeatConfig.judge, BeatConfig.beat_period_seconds, sampleConfig,
    rustFmod, rtrunc, rustRound, usizeSat, usizeMax, hfl]

/-- Judge at -0.6 s under the scenario configuration: the error magnitude
0.35 exceeds half the beat period 0.25. -/
theorem judge_eval_neg06 : sampleConfig.judge (-(3/5)) =
    { beat_index := 0, on_beat := true, error_seconds := -(7/20) } := by
  have hc1 : ⌈(-(7/10) : ℚ)⌉ = 0 := ceil_eval (by norm_num) (by norm_num)
  have hc2 : ⌈(-(17/10) : ℚ)⌉ = -1 := ceil_eval (by norm_num) (by norm_num)
  have ht : ((-1 : ℤ)).toNat = 0 := by decide
  norm_num [BeatConfig.judge, BeatConfig.beat_period_seconds, sampleConfig,
    rustFmod, rtrunc, rustRound, usizeSat, usizeMax, hc1, hc2, ht]

/-- Judge at -1 s under the scenario configuration: the rounded beat index
would be -2, and the saturating cast clamps it to 0. -/
theorem judge_eval_neg1 : sampleConfig.judge (-1) =
    { beat_index := 0, on_beat := true, error_seconds := -(1/4) } := by
  have hc1 : ⌈(-(3/2) : ℚ)⌉ = -1 := ceil_eval (by norm_num) (by norm_num)
  have hc2 : ⌈(-(5/2) : ℚ)⌉ = -2 := ceil_eval (by norm_num) (by norm_num)
  have ht : ((-2 : ℤ)).toNat = 0 := by decide
  norm_num [BeatConfig.judge, BeatConfig.beat_period_seconds, sampleConfig,
    rustFmod, rtrunc, rustRound, usizeSat, usizeMax, hc1, hc2, ht]

/-- Scenario C of the spec: polling a fresh tracker at 1.2 s emits missed
beats 0, 1, 2 with lateness 1.2, 0.7, 0.2 and resolves exactly those. -/
theorem poll_missed_eval_scenarioC :
    (BeatTracker.new sampleConfig).poll_missed (6/5) =
      ([{ beat_index := 0, late_by_seconds := 6/5 },
        { beat_index := 1, late_by_seconds := 7/10 },
        { beat_index := 2, late_by_seconds := 1/5 }],
       { config := sampleConfig, resolved_beats := {0, 1, 2}, next_miss_check := 3 }) := by
  have hp : 0 < sampleConfig.beat_period_seconds := by
    norm_num [BeatConfig.beat_period_seconds, sampleConfig]
  have hB : missBound sampleConfig (6/5) = 3 := by
    have hc : ⌈(23/10 : ℚ)⌉ = 3 := ceil_eval (by norm_num) (by norm_num)
    norm_num [missBound, BeatConfig.beat_period_seconds, sampleConfig, hc]
    decide
  have hg : sampleConfig.grace_beats = 0 := rfl
  simp only [BeatTracker.poll_missed, BeatTracker.new]
  rw [pollMissedGo_spec sampleConfig (6/5) hp ∅ sampleConfig.grace_beats (le_refl _), hB, hg]
  have hr : List.range' 0 (3 - 0) = [0, 1, 2] := rfl
  rw [hr]
  have hico : (∅ : Finset ℕ) ∪ Finset.Ico 0 3 = {0, 1, 2} := by decide
  rw [hico]
  norm_num [BeatConfig.beat_time_seconds, BeatConfig.beat_period_seconds, sampleConfig]

/-- Pressing a fresh tracker at 0.25 s (judged on beat 1 by the code) is
accepted and resolves beat 1. -/
theorem register_press_eval_quarter :
    (BeatTracker.new sampleConfig).register_press (1/4) =
      ({ judgment := { beat_index := 1, on_beat := true, error_seconds := 0 },
         accept := PressAccept.Accepted, counts := true },
       { config := sampleConfig, resolved_beats := {1}, next_miss_check := 0 }) := by
  have hj : (BeatTracker.new sampleConfig).config.judge (1/4) =
      { beat_index := 1, on_beat := true, error_seconds := 0 } := judge_eval_quarter
  simp only [BeatTracker.register_press, hj]
  norm_num [BeatTracker.new, sampleConfig]

/-- C1: the round-trip law fails on the code.  With tempo 120 (period
0.5 s), offset 0, tolerance 0.05, warm-up 0, the nominal time of beat 1 is
0.5 s, and judge at that instant returns beat index 1 but a timing error of
1/4 — the full half period, not ≈ 0 — and on_beat = false (1/4 exceeds the
tolerance 1/20).  The half-period shift is applied on top of the
min(phase, period - phase) distance, so the code measures distance to the
midpoint between beats instead of to the nearest beat. -/
theorem C1_roundtrip_fails_at_beat_one :
    sampleConfig.beat_time_seconds 1 = 1/2 ∧
    sampleConfig.judge (sampleConfig.beat_time_seconds 1) =
      { beat_index := 1, on_beat := false, error_seconds := 1/4 } ∧
    sampleConfig.beat_period_seconds / 2 = 1/4 := by
  have hbt : sampleConfig.beat_time_seconds 1 = 1/2 := by
    norm_num [BeatConfig.beat_time_seconds, BeatConfig.beat_period_seconds, sampleConfig]
  refine ⟨hbt, ?_, ?_⟩
  · rw [hbt]
    exact judge_eval_half
  · norm_num [BeatConfig.beat_period_seconds, sampleConfig]

/-- C2: what the code actually returns in scenario A, refuting the claimed
values.  judge(0.5) is off-beat with error 1/4 (claim: on-beat, error ≈ 0);
judge(0.52) is off-beat with error -23/100 (claim: on-beat, error ≈ +0.02);
judge(0.6) is off-beat as claimed but with error -3/20, not magnitude 0.1. -/
theorem C2_scenarioA_actual :
    sampleConfig.judge (1/2) =
      { beat_index := 1, on_beat := false, error_seconds := 1/4 } ∧
    sampleConfig.judge (13/25) =
      { beat_index := 1, on_beat := false, error_seconds := -(23/100) } ∧
    sampleConfig.judge (3/5) =
      { beat_index := 1, on_beat := false, error_seconds := -(3/20) } :=
  ⟨judge_eval_half, judge_eval_052, judge_eval_06⟩

/-- C3 (counterexample): with the valid scenario configuration (tempo 120 >
0, tolerance 1/20 ≥ 0), at elapsed time -0.6 s the signed error is -7/20,
whose magnitude exceeds half the beat period (1/4), refuting the bound for
negative elapsed times. -/
theorem C3_error_bound_counterexample :
    0 < sampleConfig.bpm ∧ 0 ≤ sampleConfig.leniency_seconds ∧
    sampleConfig.beat_period_seconds / 2 <
      |(sampleConfig.judge (-(3/5))).error_seconds| := by
  refine ⟨by norm_num [sampleConfig], by norm_num [sampleConfig], ?_⟩
  rw [judge_eval_neg06]
  show sampleConfig.beat_period_seconds / 2 < |(-(7/20) : ℚ)|
  rw [abs_neg, abs_of_nonneg (by norm_num : (0:ℚ) ≤ 7/20)]
  norm_num [BeatConfig.beat_period_seconds, sampleConfig]

/-- C3 (amended): for every valid configuration (tempo > 0, tolerance ≥ 0)
and every elapsed time whose shifted phase argument
elapsed + offset + period/2 is nonnegative, the magnitude of the signed
error returned by judge is at most half the beat period.  (For elapsed
times below that threshold the truncated float remainder is negative and
the bound can fail, as the counterexample shows.) -/
theorem C3_error_bound_amended (cfg : BeatConfig) (elapsed : ℚ)
    (hb : 0 < cfg.bpm) (hl : 0 ≤ cfg.leniency_seconds)
    (hnn : 0 ≤ elapsed + cfg.offset_seconds + cfg.beat_period_seconds / 2) :
    |(cfg.judge elapsed).error_seconds| ≤ cfg.beat_period_seconds / 2 := by
  have hp : 0 < cfg.beat_period_seconds := by
    unfold BeatConfig.beat_period_seconds
    exact div_pos (by norm_num) hb
  obtain ⟨h0, h1⟩ := rustFmod_bounds
    (elapsed + cfg.offset_seconds + cfg.beat_period_seconds / 2)
    cfg.beat_period_seconds hnn hp
  simp only [BeatConfig.judge]
  have hm0 : 0 ≤ min (rustFmod (elapsed + cfg.offset_seconds + cfg.beat_period_seconds / 2)
      cfg.beat_period_seconds)
      (cfg.beat_period_seconds - rustFmod (elapsed + cfg.offset_seconds +
        cfg.beat_period_seconds / 2) cfg.beat_period_seconds) :=
    le_min h0 (by linarith)
  have hm1 : min (rustFmod (elapsed + cfg.offset_seconds + cfg.beat_period_seconds / 2)
      cfg.beat_period_seconds)
      (cfg.beat_period_seconds - rustFmod (elapsed + cfg.offset_seconds +
        cfg.beat_period_seconds / 2) cfg.beat_period_seconds) ≤
      cfg.beat_period_seconds / 2 := by
    rcases le_total (rustFmod (elapsed + cfg.offset_seconds + cfg.beat_period_seconds / 2)
        cfg.beat_period_seconds)
        (cfg.beat_period_seconds - rustFmod (elapsed + cfg.offset_seconds +
          cfg.beat_period_seconds / 2) cfg.beat_period_seconds) with h | h
    · rw [min_eq_left h]
      linarith
    · rw [min_eq_right h]
      linarith
  split_ifs with hs
  · rw [abs_neg, abs_of_nonneg hm0]
    exact hm1
  · rw [abs_of_nonneg hm0]
    exact hm1

/-- C3 (witness for the amended bound): at the scenario configuration and
elapsed time 0.5 s all hypotheses hold and the bound is 1/4. -/
theorem C3_error_bound_amended_witness :
    (0:ℚ) < sampleConfig.bpm ∧ (0:ℚ) ≤ sampleConfig.leniency_seconds ∧
    (0:ℚ) ≤ 1/2 + sampleConfig.offset_seconds + sampleConfig.beat_period_seconds / 2 ∧
    |(sampleConfig.judge (1/2)).error_seconds| ≤ sampleConfig.beat_period_seconds / 2 :=
  ⟨by norm_num [sampleConfig],
   by norm_num [sampleConfig],
   by norm_num [sampleConfig, BeatConfig.beat_period_seconds],
   C3_error_bound_amended sampleConfig (1/2) (by norm_num [sampleConfig])
     (by norm_num [sampleConfig])
     (by norm_num [sampleConfig, BeatConfig.beat_period_seconds])⟩

/-- C4: exactly-once resolution.  Over every sequence of register_press and
poll_missed calls from a fresh tracker (reset produces the identical state),
the stream of resolution events — beat indices resolved by an accepted
on-beat press (tagged true) or by an emitted missed-beat notification
(tagged false) — never mentions the same beat index twice: no index is
resolved both ways, an index resolved by a press never appears in a later
missed-beat notification, and no index appears in two notifications. -/
theorem C4_exactly_once_resolution (cfg : BeatConfig) (ops : List Op) :
    ((traceResolutions (BeatTracker.new cfg) ops).map Prod.fst).Nodup :=
  traceResolutions_nodup (BeatTracker.new cfg) ops

/-- C5: idempotent duplicate with atomicity.  After a register_press that
returned Accepted with an on-beat judgment, any later register_press (after
any further presses and polls) whose judgment is on-beat at the same beat
index returns Duplicate and leaves the tracker — resolved set, scan cursor
and configuration — completely unchanged. -/
theorem C5_duplicate_idempotent (t : BeatTracker) (e : ℚ) (ops : List Op) (e2 : ℚ)
    (ha : (t.register_press e).1.accept = PressAccept.Accepted)
    (hb : (t.register_press e).1.judgment.on_beat = true)
    (hb2 : ((runOps (t.register_press e).2 ops).config.judge e2).on_beat = true)
    (hi : ((runOps (t.register_press e).2 ops).config.judge e2).beat_index =
      (t.register_press e).1.judgment.beat_index) :
    ((runOps (t.register_press e).2 ops).register_press e2).1.accept =
      PressAccept.Duplicate ∧
    ((runOps (t.register_press e).2 ops).register_press e2).2 =
      runOps (t.register_press e).2 ops := by
  have hinv := register_press_accepted_inv t e hb ha
  have hmem1 : (t.config.judge e).beat_index ∈ (t.register_press e).2.resolved_beats := by
    rw [hinv.2]
    exact Finset.mem_insert_self _ _
  have hmem2 := runOps_subset (t.register_press e).2 ops hmem1
  have hj := register_press_judgment t e
  rw [hj] at hi
  exact register_press_duplicate (runOps (t.register_press e).2 ops) e2 hb2
    (by rw [hi]; exact hmem2)

/-- C5 (witness): on a fresh scenario tracker, a press at 0.25 s is an
accepted on-beat press at beat 1, and an immediately repeated press at the
same instant is a Duplicate. -/
theorem C5_duplicate_idempotent_witness :
    ((BeatTracker.new sampleConfig).register_press (1/4)).1.accept = PressAccept.Accepted ∧
    ((BeatTracker.new sampleConfig).register_press (1/4)).1.judgment.on_beat = true ∧
    ((runOps ((BeatTracker.new sampleConfig).register_press (1/4)).2 []).config.judge
        (1/4)).on_beat = true ∧
    ((runOps ((BeatTracker.new sampleConfig).register_press (1/4)).2 []).register_press
        (1/4)).1.accept = PressAccept.Duplicate := by
  have h1 : ((BeatTracker.new sampleConfig).register_press (1/4)).1.accept =
      PressAccept.Accepted := by
    rw [register_press_eval_quarter]
  have h2 : ((BeatTracker.new sampleConfig).register_press (1/4)).1.judgment.on_beat =
      true := by
    rw [register_press_eval_quarter]
  have h3 : ((runOps ((BeatTracker.new sampleConfig).register_press (1/4)).2 []).config.judge
      (1/4)).on_beat = true := by
    show ((((BeatTracker.new sampleConfig).register_press (1/4)).2).config.judge
      (1/4)).on_beat = true
    rw [register_press_eval_quarter]
    show (sampleConfig.judge (1/4)).on_beat = true
    rw [judge_eval_quarter]
  have h4 : ((runOps ((BeatTracker.new sampleConfig).register_press (1/4)).2 []).config.judge
      (1/4)).beat_index = ((BeatTracker.new sampleConfig).register_press (1/4)).1.judgment.beat_index := by
    show ((((BeatTracker.new sampleConfig).register_press (1/4)).2).config.judge
      (1/4)).beat_index = _
    rw [register_press_eval_quarter]
    show (sampleConfig.judge (1/4)).beat_index = _
    rw [judge_eval_quarter]
  exact ⟨h1, h2, h3,
    (C5_duplicate_idempotent (BeatTracker.new sampleConfig) (1/4) [] (1/4) h1 h2 h3 h4).1⟩

/-- C6: off-beat presses are never deduplicated and never resolve a beat.
For every tracker state, a press whose judgment is not on-beat returns
Accepted and leaves the tracker (in particular the resolved set) unchanged,
so repeated off-beat presses at the same instant all return Accepted. -/
theorem C6_offbeat_press (t : BeatTracker) (e : ℚ)
    (h : (t.config.judge e).on_beat = false) :
    (t.register_press e).1.accept = PressAccept.Accepted ∧
    (t.register_press e).2 = t := by
  simp only [BeatTracker.register_press]
  rw [if_neg (by rw [h]; simp)]
  exact ⟨rfl, rfl⟩

/-- C6 (witness): on the scenario tracker, the press at 0.5 s is judged
off-beat, is Accepted, and changes nothing. -/
theorem C6_offbeat_press_witness :
    ((BeatTracker.new sampleConfig).config.judge (1/2)).on_beat = false ∧
    ((BeatTracker.new sampleConfig).register_press (1/2)).1.accept = PressAccept.Accepted ∧
    ((BeatTracker.new sampleConfig).register_press (1/2)).2 = BeatTracker.new sampleConfig := by
  have h : ((BeatTracker.new sampleConfig).config.judge (1/2)).on_beat = false := by
    show (sampleConfig.judge (1/2)).on_beat = false
    rw [judge_eval_half]
  exact ⟨h, (C6_offbeat_press (BeatTracker.new sampleConfig) (1/2) h).1,
    (C6_offbeat_press (BeatTracker.new sampleConfig) (1/2) h).2⟩

/-- C7: coverage.  For a fresh tracker with a valid configuration and no
presses, one poll_missed call resolves exactly the indices at or past the
warm-up count whose hit window has closed (empty when none has), the
notifications are exactly those indices, and they are emitted in strictly
increasing order. -/
theorem C7_poll_coverage (cfg : BeatConfig) (e : ℚ)
    (hb : 0 < cfg.bpm) (hl : 0 ≤ cfg.leniency_seconds) :
    (∀ i, i ∈ ((BeatTracker.new cfg).poll_missed e).2.resolved_beats ↔
        (cfg.grace_beats ≤ i ∧ cfg.beat_time_seconds i + cfg.leniency_seconds < e)) ∧
    (∀ i, i ∈ ((BeatTracker.new cfg).poll_missed e).1.map MissedBeat.beat_index ↔
        (cfg.grace_beats ≤ i ∧ cfg.beat_time_seconds i + cfg.leniency_seconds < e)) ∧
    (((BeatTracker.new cfg).poll_missed e).1.map MissedBeat.beat_index).Pairwise (· < ·) := by
  have hp : 0 < cfg.beat_period_seconds := by
    unfold BeatConfig.beat_period_seconds
    exact div_pos (by norm_num) hb
  have hs := pollMissedGo_spec cfg e hp ∅ cfg.grace_beats (le_refl _)
  have h2 : (BeatTracker.new cfg).poll_missed e =
      ((pollMissedGo cfg e ∅ cfg.grace_beats).1,
       { config := cfg,
         resolved_beats := (pollMissedGo cfg e ∅ cfg.grace_beats).2.1,
         next_miss_check := (pollMissedGo cfg e ∅ cfg.grace_beats).2.2 }) := rfl
  rw [h2, hs]
  dsimp only
  have hfil : (List.range' cfg.grace_beats (missBound cfg e - cfg.grace_beats)).filter
      (fun i => i ∉ (∅ : Finset ℕ)) =
      List.range' cfg.grace_beats (missBound cfg e - cfg.grace_beats) := by
    apply List.filter_eq_self.mpr
    intro a _
    simp
  have hmm : ((List.range' cfg.grace_beats (missBound cfg e - cfg.grace_beats)).map
      (fun i => ({ beat_index := i, late_by_seconds := e - cfg.beat_time_seconds i }
        : MissedBeat))).map MissedBeat.beat_index =
      List.range' cfg.grace_beats (missBound cfg e - cfg.grace_beats) := by
    rw [List.map_map]
    exact List.map_id _
  rw [hfil]
  refine ⟨?_, ?_, ?_⟩
  · intro i
    rw [Finset.empty_union, Finset.mem_Ico]
    rw [← lt_missBound_iff cfg e hp i]
  · intro i
    rw [hmm, List.mem_range'_1]
    rw [← lt_missBound_iff cfg e hp i]
    constructor
    · rintro ⟨ha, hc⟩
      exact ⟨ha, by omega⟩
    · rintro ⟨ha, hc⟩
      exact ⟨ha, by omega⟩
  · rw [hmm]
    exact List.pairwise_lt_range' _ _

/-- C7 (witness): the scenario configuration polled at 1.2 s (spec scenario
C: misses 0, 1, 2). -/
theorem C7_poll_coverage_witness :
    (0:ℚ) < sampleConfig.bpm ∧ (0:ℚ) ≤ sampleConfig.leniency_seconds ∧
    (∀ i, i ∈ ((BeatTracker.new sampleConfig).poll_missed (6/5)).2.resolved_beats ↔
        (sampleConfig.grace_beats ≤ i ∧
         sampleConfig.beat_time_seconds i + sampleConfig.leniency_seconds < 6/5)) ∧
    (∀ i, i ∈ ((BeatTracker.new sampleConfig).poll_missed (6/5)).1.map
        MissedBeat.beat_index ↔
        (sampleConfig.grace_beats ≤ i ∧
         sampleConfig.beat_time_seconds i + sampleConfig.leniency_seconds < 6/5)) ∧
    (((BeatTracker.new sampleConfig).poll_missed (6/5)).1.map
        MissedBeat.beat_index).Pairwise (· < ·) :=
  ⟨by norm_num [sampleConfig], by norm_num [sampleConfig],
   C7_poll_coverage sampleConfig (6/5) (by norm_num [sampleConfig])
     (by norm_num [sampleConfig])⟩

/-- C8: defensive termination.  The scan is a total function (the Lean
definition terminates on every input by the same measure that bounds the
Rust loop), and on a pathological configuration — beat period non-positive,
idealising the non-finite f32 period of bpm = 0 — a poll performs at most
one iteration: it emits at most one notification and advances the cursor at
most one step. -/
theorem C8_pathological_poll_bounded (t : BeatTracker) (e : ℚ)
    (hp : t.config.beat_period_seconds ≤ 0) :
    (t.poll_missed e).1.length ≤ 1 ∧
    (t.poll_missed e).2.next_miss_check ≤
      max (t.next_miss_check + 1) t.config.grace_beats := by
  have h2 : t.poll_missed e =
      ((pollMissedGo t.config e t.resolved_beats t.next_miss_check).1,
       { config := t.config,
         resolved_beats := (pollMissedGo t.config e t.resolved_beats t.next_miss_check).2.1,
         next_miss_check :=
           (pollMissedGo t.config e t.resolved_beats t.next_miss_check).2.2 }) := rfl
  rw [h2, pollMissedGo_pathological t.config e t.resolved_beats t.next_miss_check hp]
  split_ifs with h1 hmem
  · exact ⟨by simp, by dsimp only; omega⟩
  · exact ⟨by simp, by dsimp only; omega⟩
  · exact ⟨by simp, by dsimp only; omega⟩

/-- C8 (witness): a tracker with bpm = 0 (period 60/0 = 0 in the model,
non-finite in f32) polled at 1 s. -/
theorem C8_pathological_poll_bounded_witness :
    (BeatTracker.new ⟨0, 0, 0, 0⟩).config.beat_period_seconds ≤ 0 ∧
    ((BeatTracker.new ⟨0, 0, 0, 0⟩).poll_missed 1).1.length ≤ 1 :=
  ⟨by norm_num [BeatTracker.new, BeatConfig.beat_period_seconds],
   (C8_pathological_poll_bounded (BeatTracker.new ⟨0, 0, 0, 0⟩) 1
     (by norm_num [BeatTracker.new, BeatConfig.beat_period_seconds])).1⟩

/-- C9: the beat index clamps at zero.  For a valid configuration, whenever
(elapsed + offset) / period rounds to a negative value, the saturating
float-to-usize cast makes judge report beat index 0; the index is a natural
number, hence never negative. -/
theorem C9_beat_index_clamps_at_zero (cfg : BeatConfig) (e : ℚ)
    (hb : 0 < cfg.bpm)
    (hneg : rustRound ((e + cfg.offset_seconds) / cfg.beat_period_seconds) < 0) :
    (cfg.judge e).beat_index = 0 := by
  simp only [BeatConfig.judge]
  unfold usizeSat
  have ht : (rustRound ((e + cfg.offset_seconds) / cfg.beat_period_seconds)).toNat = 0 := by
    omega
  rw [ht]
  simp

/-- C9 (witness): the scenario configuration queried at -1 s, where the
rounded value is -2 and judge reports beat index 0. -/
theorem C9_beat_index_clamps_at_zero_witness :
    rustRound ((-1 + sampleConfig.offset_seconds) / sampleConfig.beat_period_seconds) < 0 ∧
    (sampleConfig.judge (-1)).beat_index = 0 := by
  have hc2 : ⌈(-(5/2) : ℚ)⌉ = -2 := ceil_eval (by norm_num) (by norm_num)
  have hr : rustRound ((-1 + sampleConfig.offset_seconds) /
      sampleConfig.beat_period_seconds) < 0 := by
    norm_num [rustRound, sampleConfig, BeatConfig.beat_period_seconds, hc2]
  exact ⟨hr, C9_beat_index_clamps_at_zero sampleConfig (-1)
    (by norm_num [sampleConfig]) hr⟩

/-- C10: every missed-beat notification records a lateness equal to the poll
time minus the nominal beat time, strictly greater than the tolerance, and
hence strictly positive whenever the tolerance is nonnegative. -/
theorem C10_missed_late_exceeds_tolerance (t : BeatTracker) (e : ℚ) (m : MissedBeat)
    (hm : m ∈ (t.poll_missed e).1) :
    m.late_by_seconds = e - t.config.beat_time_seconds m.beat_index ∧
    t.config.leniency_seconds < m.late_by_seconds ∧
    (0 ≤ t.config.leniency_seconds → 0 < m.late_by_seconds) := by
  have h := (pollMissedGo_facts t.config e t.resolved_beats t.next_miss_check).1 m hm
  obtain ⟨h1, h2, _, _⟩ := h
  refine ⟨h1, by rw [h1]; linarith, fun hl => by rw [h1]; linarith⟩

/-- C10 (witness): in spec scenario C the first notification is beat 0 with
lateness 1.2 s, which exceeds the tolerance 0.05 and is positive. -/
theorem C10_missed_late_exceeds_tolerance_witness :
    ({ beat_index := 0, late_by_seconds := 6/5 } : MissedBeat) ∈
      ((BeatTracker.new sampleConfig).poll_missed (6/5)).1 ∧
    sampleConfig.leniency_seconds <
      ({ beat_index := 0, late_by_seconds := 6/5 } : MissedBeat).late_by_seconds := by
  have hm : ({ beat_index := 0, late_by_seconds := 6/5 } : MissedBeat) ∈
      ((BeatTracker.new sampleConfig).poll_missed (6/5)).1 := by
    rw [poll_missed_eval_scenarioC]
    simp
  exact ⟨hm, (C10_missed_late_exceeds_tolerance (BeatTracker.new sampleConfig)
    (6/5) _ hm).2.1⟩
